import Mathlib

/-!
Verification development for the `sitemap_scanner` repository.

The Go sources embedded here:
  * package `sitemapscanner` (GetSitemap, getSitemapURLsFromRobots,
    processSitemap and the data structures they use);
  * the cache-backed HTTP handler `handleGetSitemap` of cmd/get_sitemap.

HTTP transport is abstracted as a `Network`: a fetch either fails
(transport error, non-200 status or a body-read error all make the Go
functions return a non-nil error before any parsing, so they are collapsed
into `none`) or yields a body.  XML bodies are abstracted to the outcomes
of the two `xml.Unmarshal` attempts the source performs on them; the
robots.txt body is kept as a raw string because the source scans it with a
regular expression.  Timeouts are not modelled.
-/

namespace SitemapScanner

/-! ### Character classes used by Go's regexp and strings packages -/

/-- The Perl character class backslash-s of Go's regexp package:
tab, newline, form feed, carriage return and space. -/
def isWs (c : Char) : Bool :=
  c = '\t' || c = '\n' || c = '\x0c' || c = '\r' || c = ' '

/-- `unicode.IsSpace`, the predicate `strings.TrimSpace` trims with:
the Unicode White_Space property. -/
def isSpaceGo (c : Char) : Bool :=
  c = '\t' || c = '\n' || c = '\x0b' || c = '\x0c' || c = '\r' || c = ' ' ||
  c.toNat = 0x85 || c.toNat = 0xA0 || c.toNat = 0x1680 ||
  (0x2000 ≤ c.toNat && c.toNat ≤ 0x200a) ||
  c.toNat = 0x2028 || c.toNat = 0x2029 || c.toNat = 0x202f ||
  c.toNat = 0x205f || c.toNat = 0x3000

/-- `strings.TrimSpace`: drop leading and trailing Unicode white space. -/
def trimSpace (l : List Char) : List Char :=
  ((l.dropWhile isSpaceGo).reverse.dropWhile isSpaceGo).reverse

/-- Case folding as used by a `(?i)` literal in Go's regexp package,
restricted to the characters of the token `sitemap:`: ASCII letters fold
with their other case, and `s` additionally folds with U+017F (long s). -/
def foldChar (c : Char) : Char :=
  if 'A' ≤ c && c ≤ 'Z' then Char.ofNat (c.toNat + 32)
  else if c.toNat = 0x17f then 's'
  else if c.toNat = 0x212a then 'k'
  else c

/-- Does `s` start with `token`, compared case-insensitively
(under `foldChar`)? -/
def startsWithCI : List Char → List Char → Bool
  | [], _ => true
  | _ :: _, [] => false
  | t :: ts, c :: cs => (foldChar c = foldChar t) && startsWithCI ts cs

/-- The literal part of the pattern `(?i)sitemap:\s*(.+)`. -/
def sitemapToken : List Char := ['s', 'i', 't', 'e', 'm', 'a', 'p', ':']

/-- Number of positions of `s` at which `token` matches case-insensitively
(occurrences of the token, overlaps counted). -/
def countOccurrencesCI (token : List Char) : List Char → Nat
  | [] => 0
  | c :: rest =>
    (if startsWithCI token (c :: rest) then 1 else 0) + countOccurrencesCI token rest

/-! ### The regex tail: matching the fragment backslash-s*(.+)

`regexp.FindAllStringSubmatch` uses leftmost-first semantics: at the match
position, the greedy star first consumes the maximal white-space run and
backtracks one character at a time until `(.+)` (one or more non-newline
characters, greedy) can match. -/

/-- The suffix of `l` starting at the last position holding a character
other than a newline (`none` when every character is a newline). -/
def lastNonNlSuffix : List Char → Option (List Char)
  | [] => none
  | c :: rest =>
    match lastNonNlSuffix rest with
    | some s => some s
    | none => if c = '\n' then none else some (c :: rest)

/-- Match `\s*(.+)` at the start of `j` with leftmost-first (greedy with
backtracking) semantics; on success return the text captured by `(.+)` and
the remainder of the input after the whole match. -/
def tryMatchTail (j : List Char) : Option (List Char × List Char) :=
  match j.dropWhile isWs with
  | c :: after =>
    -- the star consumed the maximal run; the next character is not white
    -- space, in particular not a newline, so `(.+)` matches greedily here
    let cap := (c :: after).takeWhile (fun x => x ≠ '\n')
    some (cap, (c :: after).drop cap.length)
  | [] =>
    -- the rest of the input is all white space: backtrack inside the run
    -- to the last character `(.+)` can start at (the last non-newline one)
    match lastNonNlSuffix j with
    | some suf =>
      let cap := suf.takeWhile (fun x => x ≠ '\n')
      some (cap, suf.drop cap.length)
    | none => none

theorem dropWhile_length_le (p : Char → Bool) :
    ∀ l : List Char, (l.dropWhile p).length ≤ l.length := by
  intro l
  induction l with
  | nil => simp [List.dropWhile]
  | cons c rest ih =>
    simp only [List.dropWhile]
    by_cases h : p c
    · simp only [h]
      simp
      omega
    · simp [h]

theorem lastNonNlSuffix_length_le :
    ∀ l suf, lastNonNlSuffix l = some suf → suf.length ≤ l.length := by
  intro l
  induction l with
  | nil => intro suf h; simp [lastNonNlSuffix] at h
  | cons c rest ih =>
    intro suf h
    simp only [lastNonNlSuffix] at h
    cases hr : lastNonNlSuffix rest with
    | some s =>
      rw [hr] at h
      simp only [Option.some.injEq] at h
      subst h
      have := ih s hr
      simp
      omega
    | none =>
      rw [hr] at h
      by_cases hc : c = '\n'
      · simp [hc] at h
      · simp [hc] at h
        subst h
        exact le_refl _

theorem tryMatchTail_length_le :
    ∀ j cap rest, tryMatchTail j = some (cap, rest) → rest.length ≤ j.length := by
  intro j cap rest h
  simp only [tryMatchTail] at h
  cases hd : j.dropWhile isWs with
  | cons c after =>
    rw [hd] at h
    simp only [Option.some.injEq, Prod.mk.injEq] at h
    obtain ⟨_, h2⟩ := h
    subst h2
    have h3 : (c :: after).length ≤ j.length := by
      rw [← hd]; exact dropWhile_length_le isWs j
    calc ((c :: after).drop ((c :: after).takeWhile (fun x => x ≠ '\n')).length).length
        ≤ (c :: after).length := by simp
      _ ≤ j.length := h3
  | nil =>
    rw [hd] at h
    cases hs : lastNonNlSuffix j with
    | some suf =>
      rw [hs] at h
      simp only [Option.some.injEq, Prod.mk.injEq] at h
      obtain ⟨_, h2⟩ := h
      subst h2
      have h3 := lastNonNlSuffix_length_le j suf hs
      calc (suf.drop (suf.takeWhile (fun x => x ≠ '\n')).length).length
          ≤ suf.length := by simp
        _ ≤ j.length := h3
    | none => rw [hs] at h; exact absurd h (by simp)

/-- The scan performed by `FindAllStringSubmatch` with the pattern
`(?i)sitemap:\s*(.+)`: walk the input left to right; at each position where
the case-insensitive token `sitemap:` is followed by a match of
`\s*(.+)`, emit the capture of `(.+)` and resume after the match
(matches do not overlap); otherwise advance one character.  The recursion
runs on a step counter so that it is structural; every step consumes at
least one character, so `s.length` steps always complete the scan
(`scanRobotsAux_congr` below makes the counter irrelevant beyond that). -/
def scanRobotsAux : Nat → List Char → List (List Char)
  | 0, _ => []
  | n + 1, s =>
    match s with
    | [] => []
    | c :: rest =>
      if startsWithCI sitemapToken (c :: rest) then
        match tryMatchTail ((c :: rest).drop 8) with
        | some (cap, restAfter) => cap :: scanRobotsAux n restAfter
        | none => scanRobotsAux n rest
      else scanRobotsAux n rest

def scanRobots (s : List Char) : List (List Char) :=
  scanRobotsAux s.length s

theorem scanRobotsAux_congr :
    ∀ m n s, s.length ≤ m → s.length ≤ n →
      scanRobotsAux m s = scanRobotsAux n s := by
  intro m
  induction m with
  | zero =>
    intro n s hm _
    have hs : s = [] := List.length_eq_zero.mp (Nat.le_zero.mp hm)
    subst hs
    cases n with
    | zero => rfl
    | succ k => rfl
  | succ m ih =>
    intro n s hm hn
    cases s with
    | nil =>
      cases n with
      | zero => rfl
      | succ k => rfl
    | cons c rest =>
      cases n with
      | zero => simp at hn
      | succ k =>
        show (if startsWithCI sitemapToken (c :: rest) then
                match tryMatchTail ((c :: rest).drop 8) with
                | some (cap, restAfter) => cap :: scanRobotsAux m restAfter
                | none => scanRobotsAux m rest
              else scanRobotsAux m rest) =
             (if startsWithCI sitemapToken (c :: rest) then
                match tryMatchTail ((c :: rest).drop 8) with
                | some (cap, restAfter) => cap :: scanRobotsAux k restAfter
                | none => scanRobotsAux k rest
              else scanRobotsAux k rest)
        have hrest : rest.length ≤ m ∧ rest.length ≤ k := by
          simp only [List.length_cons] at hm hn
          omega
        by_cases hst : startsWithCI sitemapToken (c :: rest) = true
        · rw [if_pos hst, if_pos hst]
          cases htm : tryMatchTail ((c :: rest).drop 8) with
          | none =>
            dsimp only
            exact ih k rest hrest.1 hrest.2
          | some p =>
            obtain ⟨cap, restAfter⟩ := p
            have hlen := tryMatchTail_length_le _ _ _ htm
            simp only [List.length_drop, List.length_cons] at hlen
            dsimp only
            rw [ih k restAfter (by omega) (by omega)]
        · rw [if_neg hst, if_neg hst]
          exact ih k rest hrest.1 hrest.2

/-! ### Go net/url.Parse

`GetSitemap` begins with `url.Parse(targetURL)` and reads only
`parsedURL.Scheme` and `parsedURL.Host` (plus the returned error), so the
model below is the standard library's `Parse` transcribed to return those
two fields.  Intermediate components (query, path, fragment, userinfo) are
still computed exactly as far as they can produce an error.  Error
messages carry the gist of Go's text; exact quoting of Go's error strings
is not reproduced (nothing downstream inspects them). -/

/-- `stringContainsCTLByte`: does the URL hold an ASCII control byte? -/
def stringContainsCTLByte (s : List Char) : Bool :=
  s.any fun c => c.toNat < 0x20 || c.toNat = 0x7f

def ishex (c : Char) : Bool :=
  ('0' ≤ c && c ≤ '9') || ('a' ≤ c && c ≤ 'f') || ('A' ≤ c && c ≤ 'F')

def unhex (c : Char) : Nat :=
  if '0' ≤ c && c ≤ '9' then c.toNat - '0'.toNat
  else if 'a' ≤ c && c ≤ 'f' then c.toNat - 'a'.toNat + 10
  else if 'A' ≤ c && c ≤ 'F' then c.toNat - 'A'.toNat + 10
  else 0

/-- The `encoding` modes of net/url. -/
inductive Encoding where
  | path
  | pathSegment
  | host
  | zone
  | userPassword
  | queryComponent
  | fragment
deriving DecidableEq, Repr

/-- net/url `shouldEscape` (over a byte; called on ASCII characters). -/
def shouldEscape (c : Char) (mode : Encoding) : Bool :=
  if ('a' ≤ c && c ≤ 'z') || ('A' ≤ c && c ≤ 'Z') || ('0' ≤ c && c ≤ '9') then
    false
  else if (mode = .host || mode = .zone) &&
      (c = '!' || c = '$' || c = '&' || c.toNat = 39 || c = '(' || c = ')' ||
       c = '*' || c = '+' || c = ',' || c = ';' || c = '=' || c = ':' ||
       c = '[' || c = ']' || c = '<' || c = '>' || c.toNat = 34) then
    false
  else if c = '-' || c = '_' || c = '.' || c = '~' then
    false
  else if c = '$' || c = '&' || c = '+' || c = ',' || c = '/' || c = ':' ||
      c = ';' || c = '=' || c = '?' || c = '@' then
    match mode with
    | .path => c = '?'
    | .pathSegment => c = '/' || c = ';' || c = ',' || c = '?'
    | .userPassword => c = '@' || c = '/' || c = '?' || c = ':'
    | .queryComponent => true
    | .fragment => false
    | _ => true
  else if mode = .fragment && (c = '!' || c = '(' || c = ')' || c = '*') then
    false
  else
    true

/-- net/url `validOptionalPort`. -/
def validOptionalPort : List Char → Bool
  | [] => true
  | ':' :: digits => digits.all fun b => '0' ≤ b && b ≤ '9'
  | _ => false

/-- net/url `validUserinfo`. -/
def validUserinfo (s : List Char) : Bool :=
  s.all fun r =>
    ('A' ≤ r && r ≤ 'Z') || ('a' ≤ r && r ≤ 'z') || ('0' ≤ r && r ≤ '9') ||
    r = '-' || r = '.' || r = '_' || r = ':' || r = '~' || r = '!' ||
    r = '$' || r = '&' || r.toNat = 39 || r = '(' || r = ')' || r = '*' ||
    r = '+' || r = ',' || r = ';' || r = '=' || r = '%' || r = '@'

/-- net/url `unescape`: validate (and decode) percent escapes; in host and
zone modes also reject ASCII characters that would have to be escaped.
Validation and decoding are fused (Go validates in a first pass and
decodes in a second; both walk left to right, so the first error is the
same). -/
def unescape : List Char → Encoding → Except String (List Char)
  | [], _ => .ok []
  | '%' :: rest, mode =>
    match rest with
    | h1 :: h2 :: rest2 =>
      if !(ishex h1 && ishex h2) then .error "invalid URL escape"
      else if mode = .host && unhex h1 < 8 && !(h1 = '2' && h2 = '5') then
        .error "invalid URL escape"
      else if mode = .zone && !(h1 = '2' && h2 = '5') &&
          unhex h1 * 16 + unhex h2 ≠ 32 &&
          shouldEscape (Char.ofNat (unhex h1 * 16 + unhex h2)) .host then
        .error "invalid URL escape"
      else
        (unescape rest2 mode).map fun t =>
          Char.ofNat (unhex h1 * 16 + unhex h2) :: t
    | _ => .error "invalid URL escape"
  | '+' :: rest, mode =>
    (unescape rest mode).map fun t =>
      (if mode = .queryComponent then ' ' else '+') :: t
  | c :: rest, mode =>
    if (mode = .host || mode = .zone) && c.toNat < 0x80 && shouldEscape c mode then
      .error "invalid character in host name"
    else
      (unescape rest mode).map fun t => c :: t

/-- Index of the first occurrence of `ch` (`strings.Index` on one byte). -/
def idxOf (ch : Char) : List Char → Option Nat
  | [] => none
  | c :: rest =>
    if c = ch then some 0 else (idxOf ch rest).map (· + 1)

/-- Index of the last occurrence of `ch` (`strings.LastIndex`). -/
def lastIdx (ch : Char) : List Char → Option Nat
  | [] => none
  | c :: rest =>
    match lastIdx ch rest with
    | some i => some (i + 1)
    | none => if c = ch then some 0 else none

/-- Index of the first occurrence of the pattern `pat` (`strings.Index`). -/
def idxOfSeq (pat : List Char) : List Char → Option Nat
  | [] => if pat.isEmpty then some 0 else none
  | c :: rest =>
    if pat.isPrefixOf (c :: rest) then some 0
    else (idxOfSeq pat rest).map (· + 1)

/-- net/url `split(s, sep, cutc=true)`: cut at the first occurrence of
`sep`, dropping the separator; `(s, "")` when `sep` is absent. -/
def splitAtFirst (sep : Char) (s : List Char) : List Char × List Char :=
  match idxOf sep s with
  | some i => (s.take i, s.drop (i + 1))
  | none => (s, [])

/-- net/url `getScheme`: split a leading `scheme:`; `first` tracks
whether we are at index 0.  Returns (scheme, rest). -/
def getSchemeAux (orig : List Char) (acc : List Char) :
    Bool → List Char → Except String (List Char × List Char)
  | _, [] => .ok ([], orig)
  | first, c :: rest =>
    if ('a' ≤ c && c ≤ 'z') || ('A' ≤ c && c ≤ 'Z') then
      getSchemeAux orig (acc ++ [c]) false rest
    else if ('0' ≤ c && c ≤ '9') || c = '+' || c = '-' || c = '.' then
      if first then .ok ([], orig)
      else getSchemeAux orig (acc ++ [c]) false rest
    else if c = ':' then
      if first then .error "missing protocol scheme"
      else .ok (acc, rest)
    else
      .ok ([], orig)

def getScheme (rawURL : List Char) : Except String (List Char × List Char) :=
  getSchemeAux rawURL [] true rawURL

/-- `strings.ToLower` on a scheme (scheme characters are ASCII). -/
def toLowerList (l : List Char) : List Char :=
  l.map fun c => if 'A' ≤ c && c ≤ 'Z' then Char.ofNat (c.toNat + 32) else c

/-- net/url `parseHost`. -/
def parseHost (host : List Char) : Except String (List Char) :=
  match host with
  | '[' :: _ =>
    match lastIdx ']' host with
    | none => .error "missing right bracket in host"
    | some i =>
      let colonPort := host.drop (i + 1)
      if !validOptionalPort colonPort then
        .error "invalid port after host"
      else
        match idxOfSeq ['%', '2', '5'] (host.take i) with
        | some zone =>
          match unescape (host.take zone) .host with
          | .error e => .error e
          | .ok host1 =>
            match unescape ((host.take i).drop zone) .zone with
            | .error e => .error e
            | .ok host2 =>
              match unescape (host.drop i) .host with
              | .error e => .error e
              | .ok host3 => .ok (host1 ++ host2 ++ host3)
        | none => unescape host .host
  | _ =>
    match lastIdx ':' host with
    | some i =>
      let colonPort := host.drop i
      if !validOptionalPort colonPort then
        .error "invalid port after host"
      else unescape host .host
    | none => unescape host .host

/-- net/url `parseAuthority`, reduced to the host it yields (the userinfo
value is never read by GetSitemap, but every error it can raise is kept). -/
def parseAuthority (authority : List Char) : Except String (List Char) :=
  match lastIdx '@' authority with
  | none => parseHost authority
  | some i =>
    match parseHost (authority.drop (i + 1)) with
    | .error e => .error e
    | .ok host =>
      let userinfo := authority.take i
      if !validUserinfo userinfo then .error "net/url: invalid userinfo"
      else if !(userinfo.contains ':') then
        match unescape userinfo .userPassword with
        | .error e => .error e
        | .ok _ => .ok host
      else
        let (username, password) := splitAtFirst ':' userinfo
        match unescape username .userPassword with
        | .error e => .error e
        | .ok _ =>
          match unescape password .userPassword with
          | .error e => .error e
          | .ok _ => .ok host

/-- The two fields of Go's `url.URL` that GetSitemap reads. -/
structure ParsedURL where
  scheme : String
  host : String
deriving Repr, DecidableEq

/-- net/url `parse(rawURL, viaRequest=false)`, reduced to Scheme/Host. -/
def goURLParseInner (rawURL : List Char) : Except String ParsedURL :=
  if stringContainsCTLByte rawURL then
    .error "net/url: invalid control character in URL"
  else if rawURL = ['*'] then
    .ok ⟨"", ""⟩
  else
    match getScheme rawURL with
    | .error e => .error e
    | .ok (scheme0, rest0) =>
      let scheme := (toLowerList scheme0).asString
      let rest1 :=
        if rest0.getLast? = some '?' && !(rest0.dropLast.contains '?') then
          rest0.dropLast
        else (splitAtFirst '?' rest0).1
      if rest1.head? ≠ some '/' ∧ scheme ≠ "" then
        -- rootless path after a scheme: treated as an RFC 3986 opáque
        -- part, returned before any authority or path handling
        .ok ⟨scheme, ""⟩
      else if rest1.head? ≠ some '/' ∧ scheme = "" ∧
          ((splitAtFirst '/' rest1).1.contains ':') then
        .error "first path segment in URL cannot contain colon"
      else if (scheme ≠ "" || !(rest1.take 3 = ['/', '/', '/'])) &&
          rest1.take 2 = ['/', '/'] then
        let auth0 := rest1.drop 2
        let (authority, rest2) :=
          match idxOf '/' auth0 with
          | some i => (auth0.take i, auth0.drop i)
          | none => (auth0, [])
        match parseAuthority authority with
        | .error e => .error e
        | .ok host =>
          match unescape rest2 .path with
          | .error e => .error e
          | .ok _ => .ok ⟨scheme, host.asString⟩
      else
        match unescape rest1 .path with
        | .error e => .error e
        | .ok _ => .ok ⟨scheme, ""⟩

/-- net/url `Parse`: cut the fragment, parse, then validate the fragment. -/
def urlParse (rawURL : String) : Except String ParsedURL :=
  let (u, frag) := splitAtFirst '#' rawURL.toList
  match goURLParseInner u with
  | .error e => .error ("parse " ++ u.asString ++ ": " ++ e)
  | .ok parsed =>
    if frag = [] then .ok parsed
    else
      match unescape frag .fragment with
      | .error e => .error ("parse " ++ rawURL ++ ": " ++ e)
      | .ok _ => .ok parsed

/-! ### Data model of package sitemapscanner -/

/-- `SitemapURL`: one URL entry of a leaf sitemap.  `siteMapIndexURL` is
the `sitemap` JSON field; the other four come from the XML element. -/
structure SitemapURL where
  siteMapIndexURL : String
  location : String
  lastModified : String
  changeFreq : String
  priority : String
deriving Repr, DecidableEq

/-- `SitemapIndexURL`: one reference inside a sitemap index. -/
structure SitemapIndexURL where
  location : String
  lastModified : String
deriving Repr, DecidableEq

/-- `SitemapResult`: the aggregate returned by `GetSitemap`
(`urls`, `sitemap_urls`, `error` in the JSON encoding). -/
structure SitemapResult where
  urls : List SitemapURL
  sitemaps : List String
  error : String
deriving Repr, DecidableEq

/-- A fetched XML body, abstracted to the outcomes of the two
`xml.Unmarshal` attempts the source performs on it: `indexParse` is the
unmarshal into `SitemapIndex` (`none` = a non-nil error, `some l` =
success with `Sitemaps` list `l`), `sitemapParse` the unmarshal into
`Sitemap` (`urlset`) likewise. -/
structure Body where
  indexParse : Option (List SitemapIndexURL)
  sitemapParse : Option (List SitemapURL)
deriving Repr, DecidableEq

/-- The HTTP world the scanner runs against.  A `none` fetch stands for a
transport error, a non-200 status or a body-read failure: all three make
the Go functions return a non-nil error before parsing anything.
`fetchText` is the raw body used for robots.txt; `fetchDoc` composes the
GET with the two unmarshal attempts on the returned bytes. -/
structure Network where
  fetchText : String → Option String
  fetchDoc : String → Option Body

/-! ### getSitemapURLsFromRobots -/

/-- `getSitemapURLsFromRobots`: GET `baseURL ++ "/robots.txt"`; on a
transport error or non-200 status return a non-nil error; otherwise run
`(?i)sitemap:\s*(.+)` over the body and return every capture trimmed with
`strings.TrimSpace`, in file order, duplicates preserved. -/
def getSitemapURLsFromRobots (net : Network) (baseURL : String) :
    Except String (List String) :=
  match net.fetchText (baseURL ++ "/robots.txt") with
  | none => .error "robots.txt not found"
  | some body =>
    .ok ((scanRobots body.toList).map fun cap => (trimSpace cap).asString)

/-! ### processSitemap

The Go function recurses through sitemap-index references with no depth
bound, so the embedding is indexed by fuel: `none` means the unfolding at
this fuel did not complete (at every fuel, for a cyclic reference graph);
for an input on which the Go function terminates the value is
`some result` for every large enough fuel. -/

/-- The tail of `processSitemap` once the body failed to qualify as an
index: unmarshal as a leaf `urlset`; a parse failure is a hard error;
on success every entry is tagged with the sitemap URL it came from. -/
def parseLeaf (body : Body) (sitemapURL : String) :
    Except String (List SitemapURL) :=
  match body.sitemapParse with
  | none => .error "failed to parse sitemap XML"
  | some urls => .ok (urls.map fun u => { u with siteMapIndexURL := sitemapURL })

/-- `processSitemap`: fetch the document; if it unmarshals as a sitemap
index with at least one entry, resolve every referenced location in order
and concatenate, swallowing child errors (the loop over the entries is
written as a right fold so that the recursion is structural on the
fuel; `processChildren` below restates it entry by entry); otherwise fall
through to the leaf parse. -/
def processSitemap (net : Network) :
    Nat → String → Option (Except String (List SitemapURL))
  | 0, _ => none
  | fuel + 1, sitemapURL =>
    match net.fetchDoc sitemapURL with
    | none => some (.error "sitemap not found")
    | some body =>
      match body.indexParse with
      | some sitemaps =>
        if 0 < sitemaps.length then
          match sitemaps.foldr (fun s acc =>
              match processSitemap net fuel s.location with
              | none => none
              | some childRes =>
                match acc with
                | none => none
                | some tailURLs =>
                  match childRes with
                  | .ok urls => some (urls ++ tailURLs)
                  | .error _ => some tailURLs) (some []) with
          | none => none
          | some allURLs => some (.ok allURLs)
        else some (parseLeaf body sitemapURL)
      | none => some (parseLeaf body sitemapURL)

/-- The loop over the entries of a sitemap index, entry by entry: a child
that fails contributes nothing; a child's entries are appended in order. -/
def processChildren (net : Network) (fuel : Nat) :
    List SitemapIndexURL → Option (List SitemapURL)
  | [] => some []
  | s :: rest =>
    match processSitemap net fuel s.location with
    | none => none
    | some childRes =>
      match processChildren net fuel rest with
      | none => none
      | some tailURLs =>
        match childRes with
        | .ok urls => some (urls ++ tailURLs)
        | .error _ => some tailURLs

theorem processChildren_eq_foldr (net : Network) (fuel : Nat) :
    ∀ l : List SitemapIndexURL,
      l.foldr (fun s acc =>
        match processSitemap net fuel s.location with
        | none => none
        | some childRes =>
          match acc with
          | none => none
          | some tailURLs =>
            match childRes with
            | .ok urls => some (urls ++ tailURLs)
            | .error _ => some tailURLs) (some []) = processChildren net fuel l := by
  intro l
  induction l with
  | nil => rfl
  | cons s rest ih =>
    simp only [List.foldr, ih]
    rfl

/-- One-step unfolding of `processSitemap` at positive fuel, with the
child loop phrased through `processChildren`. -/
theorem processSitemap_succ (net : Network) (fuel : Nat) (sitemapURL : String) :
    processSitemap net (fuel + 1) sitemapURL =
      match net.fetchDoc sitemapURL with
      | none => some (.error "sitemap not found")
      | some body =>
        match body.indexParse with
        | some sitemaps =>
          if 0 < sitemaps.length then
            match processChildren net fuel sitemaps with
            | none => none
            | some allURLs => some (.ok allURLs)
          else some (parseLeaf body sitemapURL)
        | none => some (parseLeaf body sitemapURL) := by
  unfold processSitemap
  cases net.fetchDoc sitemapURL with
  | none => rfl
  | some body =>
    dsimp only
    cases body.indexParse with
    | none => rfl
    | some sitemaps =>
      dsimp only
      by_cases hlen : 0 < sitemaps.length
      · simp only [hlen, if_true, processChildren_eq_foldr]
      · simp only [hlen, if_false]

/-! ### GetSitemap -/

/-- The static fallback list substituted when robots.txt yields nothing. -/
def fallbackList (baseURL : String) : List String :=
  [baseURL ++ "/sitemap.xml", baseURL ++ "/sitemap_index.xml",
   baseURL ++ "/sitemaps.xml"]

/-- The candidate list `GetSitemap` iterates over: the robots.txt sitemap
URLs, or the fixed fallback list when that lookup errors or is empty. -/
def sitemapCandidates (net : Network) (baseURL : String) : List String :=
  match getSitemapURLsFromRobots net baseURL with
  | .error _ => fallbackList baseURL
  | .ok sitemapURLs =>
    if sitemapURLs.length = 0 then fallbackList baseURL else sitemapURLs

/-- The candidate loop of `GetSitemap`: a candidate whose resolution
errors or yields zero entries is skipped; otherwise its entries extend
`allURLs` and the candidate joins `validSitemaps`. -/
def processCandidates (net : Network) (fuel : Nat) :
    List String → Option (List SitemapURL × List String)
  | [] => some ([], [])
  | u :: rest =>
    match processSitemap net fuel u with
    | none => none
    | some res =>
      match processCandidates net fuel rest with
      | none => none
      | some (tailURLs, tailSitemaps) =>
        match res with
        | .ok urls =>
          if 0 < urls.length then some (urls ++ tailURLs, u :: tailSitemaps)
          else some (tailURLs, tailSitemaps)
        | .error _ => some (tailURLs, tailSitemaps)

/-- The authority GetSitemap derives from the parsed target: the scheme
(defaulted to https when empty), `://`, the host. -/
def baseURLOf (parsed : ParsedURL) : String :=
  (if parsed.scheme = "" then "https" else parsed.scheme) ++ "://" ++ parsed.host

/-- `GetSitemap`: parse the target URL (a parse failure is returned as the
function-level error, paired with the zero `SitemapResult`); derive the
authority; process every candidate; set the "No sitemap data found"
message exactly when no entry was collected.  The second component of the
pair is the Go function's `error` return value. -/
def GetSitemap (net : Network) (fuel : Nat) (targetURL : String) :
    Option (SitemapResult × Option String) :=
  match urlParse targetURL with
  | .error e => some (⟨[], [], ""⟩, some e)
  | .ok parsed =>
    match processCandidates net fuel (sitemapCandidates net (baseURLOf parsed)) with
    | none => none
    | some (allURLs, validSitemaps) =>
      some ({ urls := allURLs
              sitemaps := validSitemaps
              error := if allURLs.length = 0 then "No sitemap data found" else "" },
            none)

/-! ### The cache-backed handler (cmd/get_sitemap)

`handleGetSitemap` is modelled from its cache logic onward: the POST
method check and the JSON decoding sit in the excluded transport layer;
what remains is exactly the source's sequence — empty-URL validation,
optional `refresh_cache` delete, cache lookup, and on a miss a call to
`GetSitemap` whose successful result is stored.  The cache (a
`go-cache` instance) is an association with at most one binding per key;
TTL expiry and the background sweep are outside the model (every claim
about the cache here stipulates an unexpired TTL).  The `Nat` in the
return value counts the outbound resolutions (`GetSitemap` calls) the
request performed; `none` means the resolution ran out of fuel. -/

/-- The body of a `/get-sitemap` request. -/
structure SitemapRequest where
  url : String
  refreshCache : Bool
deriving Repr, DecidableEq

/-- The responses the modelled part of the handler can produce. -/
inductive ApiResponse where
  | ok (sitemap : SitemapResult)
  | badRequest (msg : String)
  | internalError (msg : String)
deriving Repr, DecidableEq

def Cache := List (String × SitemapResult)

/-- `go-cache` `Get`. -/
def cacheLookup (st : Cache) (key : String) : Option SitemapResult :=
  match List.find? (fun e => e.1 = key) st with
  | some e => some e.2
  | none => none

/-- `go-cache` `Delete` (idempotent on a missing key). -/
def cacheDelete (st : Cache) (key : String) : Cache :=
  List.filter (fun e => e.1 ≠ key) st

/-- `go-cache` `Set` (unconditional overwrite). -/
def cacheSet (st : Cache) (key : String) (v : SitemapResult) : Cache :=
  (key, v) :: cacheDelete st key

/-- The tail of the handler after the optional refresh delete: answer
from the cache when the key is present; otherwise resolve, store a
successful result, and respond (a resolution error is returned as a 500
and nothing is stored). -/
def handleLookup (net : Network) (fuel : Nat) (st1 : Cache) (url : String) :
    Option (Cache × ApiResponse × Nat) :=
  match cacheLookup st1 url with
  | some cached => some (st1, .ok cached, 0)
  | none =>
    match GetSitemap net fuel url with
    | none => none
    | some (_, some e) => some (st1, .internalError e, 1)
    | some (res, none) => some (cacheSet st1 url res, .ok res, 1)

/-- `handleGetSitemap` from the cache logic onward (see the section
comment).  Returns the new cache, the response, and the number of
outbound resolutions. -/
def handleGetSitemap (net : Network) (fuel : Nat) (st : Cache)
    (req : SitemapRequest) : Option (Cache × ApiResponse × Nat) :=
  if req.url = "" then some (st, .badRequest "URL is required", 0)
  else
    handleLookup net fuel
      (if req.refreshCache then cacheDelete st req.url else st) req.url

/-! ### Concrete networks and auxiliary predicates used by the theorems -/

/-- A network on which every fetch fails. -/
def emptyNet : Network where
  fetchText := fun _ => none
  fetchDoc := fun _ => none

/-- Three leaf entries as `xml.Unmarshal` produces them (the `sitemap`
tag field is the zero value until `processSitemap` fills it). -/
def leafEntryA : SitemapURL :=
  ⟨"", "https://demo.example/page1", "2024-01-01", "daily", "0.8"⟩

def leafEntryB : SitemapURL :=
  ⟨"", "https://demo.example/page2", "", "", ""⟩

def leafEntryC : SitemapURL :=
  ⟨"", "https://demo.example/page3", "", "", "0.5"⟩

/-- A two-level reference chain: `root.xml` is an index referencing
`child.xml`, itself an index referencing the leaf `leaf.xml`, which holds
three URL entries.  `emptyidx.xml` unmarshals as an index with zero
entries and fails the leaf unmarshal.  robots.txt is unreachable. -/
def demoNet : Network where
  fetchText := fun _ => none
  fetchDoc := fun u =>
    if u = "https://demo.example/root.xml" then
      some ⟨some [⟨"https://demo.example/child.xml", ""⟩], none⟩
    else if u = "https://demo.example/child.xml" then
      some ⟨some [⟨"https://demo.example/leaf.xml", "2024-02-02"⟩], none⟩
    else if u = "https://demo.example/leaf.xml" then
      some ⟨none, some [leafEntryA, leafEntryB, leafEntryC]⟩
    else if u = "https://demo.example/emptyidx.xml" then
      some ⟨some [], none⟩
    else none

/-- A network whose only reachable sitemap is an index both of whose
children are unreachable. -/
def deadNet : Network where
  fetchText := fun _ => none
  fetchDoc := fun u =>
    if u = "https://alldead.example/sitemap.xml" then
      some ⟨some [⟨"https://alldead.example/a.xml", ""⟩,
                  ⟨"https://alldead.example/b.xml", ""⟩], none⟩
    else none

/-- A sitemap-index document that references itself. -/
def selfNet : Network where
  fetchText := fun _ => none
  fetchDoc := fun u =>
    if u = "https://loop.example/self.xml" then
      some ⟨some [⟨"https://loop.example/self.xml", ""⟩], none⟩
    else none

/-- A robots.txt whose body is the bare token `sitemap:` with nothing
after it. -/
def oneTokenNet : Network where
  fetchText := fun u =>
    if u = "https://r1.example/robots.txt" then some "sitemap:" else none
  fetchDoc := fun _ => none

/-- No case-insensitive occurrence of the token `sitemap:` starts inside
this line (the line is followed by a newline, which can never be part of
a token occurrence, so only the line's own characters matter). -/
def noTokenTillNl : List Char → Bool
  | [] => true
  | c :: rest =>
    !startsWithCI sitemapToken ((c :: rest) ++ ['\n']) && noTokenTillNl rest

/-- One line of a robots.txt body: either a gap line holding no
occurrence of the token (a `User-agent:` or `Disallow:` line, a comment,
an empty line), or a record line — some casing of the token at the start
of the line, followed by the rest of the line `v` (the regex text
`\s*(.+)` applies to `v`, so `v` carries its own spacing). -/
inductive RobotsLine where
  | gap (g : List Char)
  | record (tok : List Char) (v : List Char)
deriving Repr

def lineChars : RobotsLine → List Char
  | .gap g => g
  | .record tok v => tok ++ v

/-- A robots.txt body: the given lines, each terminated by a newline. -/
def robotsBodyOf : List RobotsLine → List Char
  | [] => []
  | l :: ls => lineChars l ++ '\n' :: robotsBodyOf ls

/-- The post-token texts of the record lines, in file order. -/
def recordValues : List RobotsLine → List (List Char)
  | [] => []
  | .gap _ :: ls => recordValues ls
  | .record _ v :: ls => v :: recordValues ls

/-- The amended claim's shape of a line: a gap line holds no newline and
no token occurrence; a record line starts with a case-insensitive spelling
of `sitemap:` whose trailing text holds no newline and at least one
non-white-space character. -/
def WfLine : RobotsLine → Prop
  | .gap g => '\n' ∉ g ∧ noTokenTillNl g = true
  | .record tok v => tok.map foldChar = sitemapToken.map foldChar ∧
      '\n' ∉ v ∧ ∃ c ∈ v, isWs c = false

/-- A robots.txt with two sitemap records (mixed casings and spacings)
interleaved with gap lines. -/
def robotsDemoLines : List RobotsLine :=
  [.gap "User-agent: *".toList,
   .record "Sitemap:".toList " https://r2.example/a.xml".toList,
   .gap "Disallow: /private".toList,
   .record "sItEmAp:".toList "https://r2.example/b.xml  ".toList]

def robotsListNet : Network where
  fetchText := fun u =>
    if u = "https://r2.example/robots.txt" then
      some (robotsBodyOf robotsDemoLines).asString
    else none
  fetchDoc := fun _ => none

/-- The entry `e` was parsed out of the leaf sitemap document its
`siteMapIndexURL` tag names: that URL fetches to a body which does not
qualify as an index (unmarshal error or zero entries), whose leaf
unmarshal succeeds, and one of whose raw entries `e` is, up to the tag
`processSitemap` fills in. -/
def TaggedFromLeaf (net : Network) (e : SitemapURL) : Prop :=
  ∃ body, net.fetchDoc e.siteMapIndexURL = some body ∧
    (∀ l, body.indexParse = some l → l = []) ∧
    ∃ raw, body.sitemapParse = some raw ∧
      ∃ orig ∈ raw, e = { orig with siteMapIndexURL := e.siteMapIndexURL }

/-! ### Claim C2 -/

/-- C2: for every target whose robots.txt fetch fails (transport error or
non-200 status, both collapsed into a failed fetch) or whose robots.txt
yields zero sitemap declarations, the candidate list used by GetSitemap is
exactly the three fixed fallback paths, in order. -/
theorem c2_fallback_candidates (net : Network) (baseURL : String)
    (h : net.fetchText (baseURL ++ "/robots.txt") = none ∨
         ∃ body, net.fetchText (baseURL ++ "/robots.txt") = some body ∧
           scanRobots body.toList = []) :
    sitemapCandidates net baseURL =
      [baseURL ++ "/sitemap.xml", baseURL ++ "/sitemap_index.xml",
       baseURL ++ "/sitemaps.xml"] := by
  unfold sitemapCandidates getSitemapURLsFromRobots
  rcases h with h | ⟨body, h, hscan⟩
  · rw [h]
    rfl
  · rw [h]
    dsimp only
    rw [hscan]
    rfl

/-- Witness for C2 at a network with no reachable robots.txt. -/
theorem c2_fallback_candidates_witness :
    sitemapCandidates emptyNet "https://x.example" =
      ["https://x.example/sitemap.xml", "https://x.example/sitemap_index.xml",
       "https://x.example/sitemaps.xml"] :=
  c2_fallback_candidates emptyNet "https://x.example" (Or.inl rfl)

/-! ### Claim C4 -/

/-- C4: a candidate whose resolution fails or yields zero leaf entries is
dropped silently — it appears neither in `sitemap_urls` nor in `urls` and
does not abort the remaining candidates; and a sitemap index all of whose
children are unreachable yields a result with the error string set and
empty `urls` and `sitemap_urls`. -/
theorem c4_failed_candidates_dropped :
    (∀ net fuel u rest e, processSitemap net fuel u = some (.error e) →
        processCandidates net fuel (u :: rest) = processCandidates net fuel rest) ∧
    (∀ net fuel u rest, processSitemap net fuel u = some (.ok []) →
        processCandidates net fuel (u :: rest) = processCandidates net fuel rest) ∧
    GetSitemap deadNet 2 "https://alldead.example" =
      some (⟨[], [], "No sitemap data found"⟩, none) := by
  refine ⟨?_, ?_, by rfl⟩
  · intro net fuel u rest e h
    show (match processSitemap net fuel u with
          | none => none
          | some res =>
            match processCandidates net fuel rest with
            | none => none
            | some (tailURLs, tailSitemaps) =>
              match res with
              | .ok urls =>
                if 0 < urls.length then some (urls ++ tailURLs, u :: tailSitemaps)
                else some (tailURLs, tailSitemaps)
              | .error _ => some (tailURLs, tailSitemaps)) =
        processCandidates net fuel rest
    rw [h]
    cases hr : processCandidates net fuel rest with
    | none => rfl
    | some p => cases p; rfl
  · intro net fuel u rest h
    show (match processSitemap net fuel u with
          | none => none
          | some res =>
            match processCandidates net fuel rest with
            | none => none
            | some (tailURLs, tailSitemaps) =>
              match res with
              | .ok urls =>
                if 0 < urls.length then some (urls ++ tailURLs, u :: tailSitemaps)
                else some (tailURLs, tailSitemaps)
              | .error _ => some (tailURLs, tailSitemaps)) =
        processCandidates net fuel rest
    rw [h]
    cases hr : processCandidates net fuel rest with
    | none => rfl
    | some p => cases p; rfl

/-- Witness for C4: a failing candidate and an empty candidate are both
dropped at a concrete input. -/
theorem c4_failed_candidates_dropped_witness :
    processCandidates emptyNet 1 ["https://x.example/dead.xml",
        "https://x.example/also-dead.xml"] =
      processCandidates emptyNet 1 ["https://x.example/also-dead.xml"] :=
  c4_failed_candidates_dropped.1 emptyNet 1 "https://x.example/dead.xml"
    ["https://x.example/also-dead.xml"] "sitemap not found" rfl

/-! ### Claim C7 -/

/-- C7 counterexample: the claim says the input `"not a url"` makes
GetSitemap return a non-nil function-level InputError; in fact Go's
url.Parse accepts it (a space is not a control byte and there is no
scheme, so it parses as a relative path with empty scheme and host) and
GetSitemap returns a ResolutionResult with a nil function-level error. -/
theorem c7_counterexample :
    GetSitemap emptyNet 1 "not a url" =
      some (⟨[], [], "No sitemap data found"⟩, none) := by rfl

/-- C7 amended: the function-level error is non-nil exactly when
url.Parse fails on the target (e.g. a control character); `"not a url"`
parses successfully (empty scheme and host) and yields a result whose
error field is set instead; all network and parse failures are absorbed
into the result. -/
theorem c7_error_only_for_unparsable :
    (∀ net fuel url r e, GetSitemap net fuel url = some (r, some e) →
        urlParse url = .error e) ∧
    urlParse "not a url" = .ok ⟨"", ""⟩ ∧
    GetSitemap emptyNet 1 "not a url" =
      some (⟨[], [], "No sitemap data found"⟩, none) := by
  refine ⟨?_, by rfl, by rfl⟩
  intro net fuel url r e h
  unfold GetSitemap at h
  split at h
  · next msg hmsg =>
    simp only [Option.some.injEq, Prod.mk.injEq] at h
    rw [hmsg, h.2]
  · next parsed hparsed =>
    split at h
    · exact absurd h (by simp)
    · simp only [Option.some.injEq, Prod.mk.injEq] at h
      exact absurd h.2 (by simp)

/-- Witness for C7: a control character makes url.Parse fail, and then
GetSitemap's error return is exactly that parse error. -/
theorem c7_error_only_for_unparsable_witness :
    urlParse "\x01" =
      .error "parse \x01: net/url: invalid control character in URL" :=
  c7_error_only_for_unparsable.1 emptyNet 0 "\x01" ⟨[], [], ""⟩
    "parse \x01: net/url: invalid control character in URL" rfl

/-! ### Claim C8 -/

/-- C8: processSitemap has no cycle detection and no depth limit: on a
sitemap-index document that references itself the recursive resolution
never completes — the fuel-indexed unfolding is exhausted at every fuel. -/
theorem c8_self_reference_diverges :
    ∀ fuel, processSitemap selfNet fuel "https://loop.example/self.xml" = none := by
  intro fuel
  induction fuel with
  | zero => rfl
  | succ n ih =>
    have h1 : processChildren selfNet n
        [⟨"https://loop.example/self.xml", ""⟩] = none := by
      show (match processSitemap selfNet n "https://loop.example/self.xml" with
            | none => none
            | some childRes =>
              match processChildren selfNet n
                  ([] : List SitemapIndexURL) with
              | none => none
              | some tailURLs =>
                match childRes with
                | .ok urls => some (urls ++ tailURLs)
                | .error _ => some tailURLs) = none
      rw [ih]
    rw [processSitemap_succ]
    show (match processChildren selfNet n
            [⟨"https://loop.example/self.xml", ""⟩] with
          | none => none
          | some allURLs => some (Except.ok allURLs)) = none
    rw [h1]

/-! ### Claim C10 -/

/-- C10: whenever GetSitemap returns a non-nil function-level error, the
accompanying SitemapResult is the zero value — empty URLs, empty Sitemaps
and an empty Error string. -/
theorem c10_error_pairs_zero_result (net : Network) (fuel : Nat)
    (targetURL : String) (r : SitemapResult) (e : String)
    (hrun : GetSitemap net fuel targetURL = some (r, some e)) :
    r = ⟨[], [], ""⟩ := by
  unfold GetSitemap at hrun
  split at hrun
  · simp only [Option.some.injEq, Prod.mk.injEq] at hrun
    exact hrun.1.symm
  · split at hrun
    · exact absurd hrun (by simp)
    · simp only [Option.some.injEq, Prod.mk.injEq] at hrun
      exact absurd hrun.2 (by simp)

/-- Witness for C10 at a concrete unparsable target. -/
theorem c10_error_pairs_zero_result_witness :
    (⟨[], [], ""⟩ : SitemapResult) = ⟨[], [], ""⟩ :=
  c10_error_pairs_zero_result emptyNet 0 "\x01" ⟨[], [], ""⟩
    "parse \x01: net/url: invalid control character in URL" rfl

/-! ### Claim C1 -/

/-- C1: a body that unmarshals as a sitemap index with at least one entry
is treated as an index — every referenced location is resolved in order
and the leaf entries concatenated, a failing child contributing nothing
without aborting the rest; an index parse with zero entries falls through
to the leaf parse, whose failure is a hard error for that one sitemap
URL, propagated to the caller. -/
theorem c1_index_and_leaf_classification :
    (∀ net fuel url body sitemaps, Network.fetchDoc net url = some body →
        body.indexParse = some sitemaps → 0 < sitemaps.length →
        processSitemap net (fuel + 1) url =
          match processChildren net fuel sitemaps with
          | none => none
          | some allURLs => some (.ok allURLs)) ∧
    (∀ net fuel s rest e,
        processSitemap net fuel (SitemapIndexURL.location s) = some (.error e) →
        processChildren net fuel (s :: rest) = processChildren net fuel rest) ∧
    (∀ net fuel s rest urls,
        processSitemap net fuel (SitemapIndexURL.location s) = some (.ok urls) →
        processChildren net fuel (s :: rest) =
          (processChildren net fuel rest).map (urls ++ ·)) ∧
    (∀ net fuel url body, Network.fetchDoc net url = some body →
        body.indexParse = some [] →
        processSitemap net (fuel + 1) url = some (parseLeaf body url)) ∧
    (∀ net fuel url body, Network.fetchDoc net url = some body →
        body.indexParse = some [] → body.sitemapParse = none →
        processSitemap net (fuel + 1) url =
          some (.error "failed to parse sitemap XML")) := by
  refine ⟨?_, ?_, ?_, ?_, ?_⟩
  · intro net fuel url body sitemaps hfetch hidx hlen
    rw [processSitemap_succ, hfetch]
    dsimp only
    rw [hidx]
    dsimp only
    rw [if_pos hlen]
  · intro net fuel s rest e h
    show (match processSitemap net fuel s.location with
          | none => none
          | some childRes =>
            match processChildren net fuel rest with
            | none => none
            | some tailURLs =>
              match childRes with
              | .ok urls => some (urls ++ tailURLs)
              | .error _ => some tailURLs) = processChildren net fuel rest
    rw [h]
    cases processChildren net fuel rest with
    | none => rfl
    | some t => rfl
  · intro net fuel s rest urls h
    show (match processSitemap net fuel s.location with
          | none => none
          | some childRes =>
            match processChildren net fuel rest with
            | none => none
            | some tailURLs =>
              match childRes with
              | .ok urls => some (urls ++ tailURLs)
              | .error _ => some tailURLs) =
        (processChildren net fuel rest).map (urls ++ ·)
    rw [h]
    cases processChildren net fuel rest with
    | none => rfl
    | some t => rfl
  · intro net fuel url body hfetch hidx
    rw [processSitemap_succ, hfetch]
    dsimp only
    rw [hidx]
    rfl
  · intro net fuel url body hfetch hidx hleaf
    rw [processSitemap_succ, hfetch]
    dsimp only
    rw [hidx]
    dsimp only
    unfold parseLeaf
    rw [hleaf]
    rfl

/-- Witness for C1: the index step at the demo root, and the hard leaf
failure at a document that is an empty index and no leaf. -/
theorem c1_index_and_leaf_classification_witness :
    (processSitemap demoNet 2 "https://demo.example/root.xml" =
      match processChildren demoNet 1 [⟨"https://demo.example/child.xml", ""⟩] with
      | none => none
      | some allURLs => some (.ok allURLs)) ∧
    processSitemap demoNet 1 "https://demo.example/emptyidx.xml" =
      some (.error "failed to parse sitemap XML") := by
  constructor
  · exact c1_index_and_leaf_classification.1 demoNet 1
      "https://demo.example/root.xml" ⟨some [⟨"https://demo.example/child.xml", ""⟩], none⟩
      [⟨"https://demo.example/child.xml", ""⟩] rfl rfl (by decide)
  · exact c1_index_and_leaf_classification.2.2.2.2 demoNet 0
      "https://demo.example/emptyidx.xml" ⟨some [], none⟩ rfl rfl rfl

/-! ### Claim C5 -/

/-- C5: for every target the URL parser accepts, GetSitemap returns a nil
function-level error, and the result's error string is populated (with
"No sitemap data found") exactly when the final urls sequence is empty. -/
theorem c5_result_error_iff_empty (net : Network) (fuel : Nat)
    (targetURL : String) (parsed : ParsedURL) (r : SitemapResult)
    (e? : Option String)
    (hparse : urlParse targetURL = .ok parsed)
    (hrun : GetSitemap net fuel targetURL = some (r, e?)) :
    e? = none ∧ (r.urls = [] → r.error = "No sitemap data found") ∧
    (r.urls ≠ [] → r.error = "") := by
  unfold GetSitemap at hrun
  rw [hparse] at hrun
  dsimp only at hrun
  cases hc : processCandidates net fuel (sitemapCandidates net (baseURLOf parsed)) with
  | none =>
    rw [hc] at hrun
    exact absurd hrun (by simp)
  | some p =>
    obtain ⟨allURLs, validSitemaps⟩ := p
    rw [hc] at hrun
    dsimp only at hrun
    simp only [Option.some.injEq, Prod.mk.injEq] at hrun
    obtain ⟨h1, h2⟩ := hrun
    subst h1
    subst h2
    refine ⟨rfl, ?_, ?_⟩
    · intro hu
      dsimp only at hu ⊢
      simp [hu]
    · intro hu
      dsimp only at hu ⊢
      cases allURLs with
      | nil => exact absurd rfl hu
      | cons a l => simp

/-- Witness for C5 at a run that collects zero entries. -/
theorem c5_result_error_iff_empty_witness :
    (none : Option String) = none ∧
    (SitemapResult.mk [] [] "No sitemap data found").error =
      "No sitemap data found" := by
  have h := c5_result_error_iff_empty emptyNet 1 "https://w.example"
    ⟨"https", "w.example"⟩ ⟨[], [], "No sitemap data found"⟩ none rfl rfl
  exact ⟨h.1, h.2.1 rfl⟩

/-! ### Claim C9 -/

theorem cacheLookup_set_self (st : Cache) (k : String) (v : SitemapResult) :
    cacheLookup (cacheSet st k v) k = some v := by
  unfold cacheLookup cacheSet
  simp [List.find?]

theorem cacheLookup_delete_self (st : Cache) (k : String) :
    cacheLookup (cacheDelete st k) k = none := by
  unfold cacheLookup cacheDelete
  induction st with
  | nil => rfl
  | cons e rest ih =>
    by_cases he : e.1 = k
    · simpa [List.filter, he] using ih
    · simpa [List.filter, he, List.find?] using ih

/-- C9: with the key absent, a request performs one outbound resolution
and stores the result; a second request with no refresh is answered from
the cache with zero outbound resolutions; a request with
`refresh_cache = true` first deletes the entry and therefore performs a
fresh outbound resolution even though the TTL has not expired (expiry is
outside the model). -/
theorem c9_cache_single_resolution (net : Network) (fuel : Nat) (st : Cache)
    (url : String) (res : SitemapResult)
    (hne : ¬url = "")
    (hmiss : cacheLookup st url = none)
    (hres : GetSitemap net fuel url = some (res, none)) :
    handleGetSitemap net fuel st ⟨url, false⟩ =
      some (cacheSet st url res, .ok res, 1) ∧
    handleGetSitemap net fuel (cacheSet st url res) ⟨url, false⟩ =
      some (cacheSet st url res, .ok res, 0) ∧
    handleGetSitemap net fuel (cacheSet st url res) ⟨url, true⟩ =
      some (cacheSet (cacheDelete (cacheSet st url res) url) url res,
            .ok res, 1) := by
  unfold handleGetSitemap handleLookup
  dsimp only
  simp only [if_neg hne, Bool.false_eq_true, eq_self_iff_true, if_true, if_false]
  rw [hmiss, hres, cacheLookup_set_self, cacheLookup_delete_self]
  exact ⟨rfl, rfl, rfl⟩

/-- Witness for C9 at a concrete network and key. -/
theorem c9_cache_single_resolution_witness :
    handleGetSitemap emptyNet 1 [] ⟨"https://w.example", false⟩ =
      some (cacheSet [] "https://w.example" ⟨[], [], "No sitemap data found"⟩,
            .ok ⟨[], [], "No sitemap data found"⟩, 1) ∧
    handleGetSitemap emptyNet 1
        (cacheSet [] "https://w.example" ⟨[], [], "No sitemap data found"⟩)
        ⟨"https://w.example", false⟩ =
      some (cacheSet [] "https://w.example" ⟨[], [], "No sitemap data found"⟩,
            .ok ⟨[], [], "No sitemap data found"⟩, 0) ∧
    handleGetSitemap emptyNet 1
        (cacheSet [] "https://w.example" ⟨[], [], "No sitemap data found"⟩)
        ⟨"https://w.example", true⟩ =
      some (cacheSet
              (cacheDelete
                (cacheSet [] "https://w.example" ⟨[], [], "No sitemap data found"⟩)
                "https://w.example")
              "https://w.example" ⟨[], [], "No sitemap data found"⟩,
            .ok ⟨[], [], "No sitemap data found"⟩, 1) :=
  c9_cache_single_resolution emptyNet 1 [] "https://w.example"
    ⟨[], [], "No sitemap data found"⟩ (by decide) rfl rfl

/-! ### Claim C6 -/

theorem parseLeaf_tag_sound (net : Network) (url : String) (body : Body)
    (hf : Network.fetchDoc net url = some body)
    (hidx : ∀ l, body.indexParse = some l → l = [])
    (urls : List SitemapURL)
    (h : parseLeaf body url = .ok urls) :
    ∀ e ∈ urls, TaggedFromLeaf net e := by
  intro e he
  unfold parseLeaf at h
  cases hs : body.sitemapParse with
  | none =>
    rw [hs] at h
    exact absurd h (by simp)
  | some raw =>
    rw [hs] at h
    simp only [Except.ok.injEq] at h
    subst h
    simp only [List.mem_map] at he
    obtain ⟨orig, horig, he⟩ := he
    subst he
    exact ⟨body, hf, hidx, raw, hs, orig, horig, rfl⟩

theorem processSitemap_tag_sound (net : Network) : ∀ fuel,
    (∀ url urls, processSitemap net fuel url = some (.ok urls) →
       ∀ e ∈ urls, TaggedFromLeaf net e) ∧
    (∀ l urls, processChildren net fuel l = some urls →
       ∀ e ∈ urls, TaggedFromLeaf net e) := by
  intro fuel
  induction fuel with
  | zero =>
    constructor
    · intro url urls h
      exact absurd h (by simp [processSitemap])
    · intro l
      induction l with
      | nil =>
        intro urls h e he
        simp only [processChildren, Option.some.injEq] at h
        subst h
        simp at he
      | cons s rest _ =>
        intro urls h
        exact absurd h (by simp [processChildren, processSitemap])
  | succ n ih =>
    have hA : ∀ url urls, processSitemap net (n + 1) url = some (.ok urls) →
        ∀ e ∈ urls, TaggedFromLeaf net e := by
      intro url urls h
      rw [processSitemap_succ] at h
      cases hf : Network.fetchDoc net url with
      | none =>
        rw [hf] at h
        exact absurd h (by simp)
      | some body =>
        rw [hf] at h
        dsimp only at h
        cases hb : body.indexParse with
        | none =>
          rw [hb] at h
          dsimp only at h
          simp only [Option.some.injEq] at h
          refine parseLeaf_tag_sound net url body hf ?_ urls h
          intro l hl
          rw [hb] at hl
          exact absurd hl (by simp)
        | some sitemaps =>
          rw [hb] at h
          dsimp only at h
          by_cases hlen : 0 < sitemaps.length
          · rw [if_pos hlen] at h
            cases hc : processChildren net n sitemaps with
            | none =>
              rw [hc] at h
              exact absurd h (by simp)
            | some allURLs =>
              rw [hc] at h
              simp only [Option.some.injEq, Except.ok.injEq] at h
              subst h
              exact ih.2 sitemaps allURLs hc
          · rw [if_neg hlen] at h
            have hempty : sitemaps = [] := by
              cases sitemaps with
              | nil => rfl
              | cons a l => simp at hlen
            simp only [Option.some.injEq] at h
            refine parseLeaf_tag_sound net url body hf ?_ urls h
            intro l hl
            rw [hb] at hl
            injection hl with hl2
            rw [← hl2]
            exact hempty
    refine ⟨hA, ?_⟩
    intro l
    induction l with
    | nil =>
      intro urls h e he
      simp only [processChildren, Option.some.injEq] at h
      subst h
      simp at he
    | cons s rest ihl =>
      intro urls h e he
      have hstep : processChildren net (n + 1) (s :: rest) =
          match processSitemap net (n + 1) s.location with
          | none => none
          | some childRes =>
            match processChildren net (n + 1) rest with
            | none => none
            | some tailURLs =>
              match childRes with
              | .ok us => some (us ++ tailURLs)
              | .error _ => some tailURLs := rfl
      rw [hstep] at h
      cases hcs : processSitemap net (n + 1) s.location with
      | none =>
        rw [hcs] at h
        exact absurd h (by simp)
      | some childRes =>
        rw [hcs] at h
        dsimp only at h
        cases hct : processChildren net (n + 1) rest with
        | none =>
          rw [hct] at h
          exact absurd h (by simp)
        | some tailURLs =>
          rw [hct] at h
          dsimp only at h
          cases childRes with
          | ok us =>
            simp only [Option.some.injEq] at h
            subst h
            rcases List.mem_append.mp he with hl | hr
            · exact hA s.location us hcs e hl
            · exact ihl tailURLs hct e hr
          | error msg =>
            simp only [Option.some.injEq] at h
            subst h
            exact ihl _ hct e he

/-- C6: every leaf entry in the returned urls sequence is tagged (in its
`sitemap` field) with the URL of the leaf sitemap document it was parsed
from; in particular the two-level index (root index → child index → leaf
with 3 URL entries) yields exactly 3 leaf entries, each tagged with the
leaf sitemap's URL, which is not the root's. -/
theorem c6_entries_tagged_with_leaf :
    (∀ net fuel url urls, processSitemap net fuel url = some (.ok urls) →
        ∀ e ∈ urls, TaggedFromLeaf net e) ∧
    processSitemap demoNet 3 "https://demo.example/root.xml" =
      some (.ok
        [{ leafEntryA with siteMapIndexURL := "https://demo.example/leaf.xml" },
         { leafEntryB with siteMapIndexURL := "https://demo.example/leaf.xml" },
         { leafEntryC with siteMapIndexURL := "https://demo.example/leaf.xml" }]) ∧
    "https://demo.example/leaf.xml" ≠ "https://demo.example/root.xml" := by
  refine ⟨?_, by rfl, by decide⟩
  intro net fuel url urls h
  exact (processSitemap_tag_sound net fuel).1 url urls h

/-- Witness for C6: the first entry of the two-level resolution comes,
per its tag, from the leaf document. -/
theorem c6_entries_tagged_with_leaf_witness :
    TaggedFromLeaf demoNet
      { leafEntryA with siteMapIndexURL := "https://demo.example/leaf.xml" } :=
  c6_entries_tagged_with_leaf.1 demoNet 3 "https://demo.example/root.xml"
    [{ leafEntryA with siteMapIndexURL := "https://demo.example/leaf.xml" },
     { leafEntryB with siteMapIndexURL := "https://demo.example/leaf.xml" },
     { leafEntryC with siteMapIndexURL := "https://demo.example/leaf.xml" }]
    rfl _ (by simp)

/-! ### Claim C3 -/

theorem dropWhile_append_of_exists {p : Char → Bool} :
    ∀ (v w : List Char), (∃ c ∈ v, p c = false) →
      (v ++ w).dropWhile p = v.dropWhile p ++ w := by
  intro v
  induction v with
  | nil =>
    intro w h
    simp at h
  | cons c rest ih =>
    intro w h
    by_cases hc : p c = true
    · obtain ⟨d, hd, hdp⟩ := h
      rcases List.mem_cons.mp hd with hd1 | hd2
      · subst hd1
        rw [hc] at hdp
        exact absurd hdp (by simp)
      · rw [List.cons_append, List.dropWhile_cons_of_pos hc,
          List.dropWhile_cons_of_pos hc]
        exact ih w ⟨d, hd2, hdp⟩
    · rw [List.cons_append, List.dropWhile_cons_of_neg hc,
        List.dropWhile_cons_of_neg hc]
      rfl

theorem dropWhile_ne_nil_of_exists {p : Char → Bool} :
    ∀ v : List Char, (∃ c ∈ v, p c = false) → v.dropWhile p ≠ [] := by
  intro v
  induction v with
  | nil =>
    intro h
    simp at h
  | cons c rest ih =>
    intro h
    by_cases hc : p c = true
    · obtain ⟨d, hd, hdp⟩ := h
      rcases List.mem_cons.mp hd with hd1 | hd2
      · subst hd1
        rw [hc] at hdp
        exact absurd hdp (by simp)
      · rw [List.dropWhile_cons_of_pos hc]
        exact ih ⟨d, hd2, hdp⟩
    · rw [List.dropWhile_cons_of_neg hc]
      simp

theorem takeWhile_append_stop {q : Char → Bool} :
    ∀ (a : List Char) (b : Char) (w : List Char),
      (∀ c ∈ a, q c = true) → q b = false →
      (a ++ b :: w).takeWhile q = a := by
  intro a
  induction a with
  | nil =>
    intro b w _ hb
    rw [List.nil_append, List.takeWhile_cons_of_neg (by simp [hb])]
  | cons c rest ih =>
    intro b w ha hb
    rw [List.cons_append, List.takeWhile_cons_of_pos (ha c (by simp)),
      ih b w (fun d hd => ha d (by simp [hd])) hb]

theorem isWs_isSpaceGo {c : Char} (h : isWs c = true) : isSpaceGo c = true := by
  unfold isWs at h
  rcases (by simpa using h :
      (((c = '\t' ∨ c = '\n') ∨ c = '\x0c') ∨ c = '\x0d') ∨ c = ' ')
    with (((h1 | h1) | h1) | h1) | h1 <;> subst h1 <;> decide

theorem dropWhile_dropWhile_of_imp {p q : Char → Bool}
    (himp : ∀ c, p c = true → q c = true) :
    ∀ l : List Char, (l.dropWhile p).dropWhile q = l.dropWhile q := by
  intro l
  induction l with
  | nil => rfl
  | cons c rest ih =>
    by_cases hc : p c = true
    · rw [List.dropWhile_cons_of_pos hc, ih,
        List.dropWhile_cons_of_pos (himp c hc)]
    · rw [List.dropWhile_cons_of_neg hc]

theorem trimSpace_dropWhile_isWs (v : List Char) :
    trimSpace (v.dropWhile isWs) = trimSpace v := by
  unfold trimSpace
  rw [dropWhile_dropWhile_of_imp (fun c hc => isWs_isSpaceGo hc)]

/-- A token occurrence can never reach past a newline (no token character
folds to a newline), so whether a match starts at a given position
depends only on the characters up to and including the next newline. -/
theorem startsWithCI_stops_at_nl :
    ∀ tok : List Char, (∀ t ∈ tok, foldChar t ≠ '\n') →
    ∀ g r r' : List Char,
      startsWithCI tok (g ++ '\n' :: r) = startsWithCI tok (g ++ '\n' :: r') := by
  intro tok htok
  induction tok with
  | nil =>
    intro g r r'
    rfl
  | cons t ts ih =>
    intro g r r'
    cases g with
    | nil =>
      show (decide (foldChar '\n' = foldChar t) && startsWithCI ts r) =
        (decide (foldChar '\n' = foldChar t) && startsWithCI ts r')
      have hne : foldChar t ≠ '\n' := htok t (by simp)
      have hdec : decide (foldChar '\n' = foldChar t) = false := by
        rw [show foldChar '\n' = '\n' from rfl]
        exact decide_eq_false (fun he => hne he.symm)
      rw [hdec]
      simp
    | cons c g' =>
      show (decide (foldChar c = foldChar t) && startsWithCI ts (g' ++ '\n' :: r)) =
        (decide (foldChar c = foldChar t) && startsWithCI ts (g' ++ '\n' :: r'))
      rw [ih (fun u hu => htok u (by simp [hu])) g' r r']

/-- A string whose start folds like the token matches it, whatever
follows. -/
theorem startsWithCI_append_of_fold :
    ∀ t s : List Char, s.map foldChar = t.map foldChar →
      ∀ w, startsWithCI t (s ++ w) = true := by
  intro t
  induction t with
  | nil =>
    intro s h w
    rfl
  | cons t ts ih =>
    intro s h w
    cases s with
    | nil => simp at h
    | cons c s' =>
      simp only [List.map, List.cons.injEq] at h
      show (decide (foldChar c = foldChar t) && startsWithCI ts (s' ++ w)) = true
      rw [ih s' h.2 w]
      simp [h.1]

/-- One scan step at a position where the token does not match. -/
theorem scanRobotsAux_cons_neg (n : Nat) (c : Char) (s : List Char)
    (h : startsWithCI sitemapToken (c :: s) = false) :
    scanRobotsAux (n + 1) (c :: s) = scanRobotsAux n s := by
  show (if startsWithCI sitemapToken (c :: s) = true then
          match tryMatchTail ((c :: s).drop 8) with
          | some (cap, restAfter) => cap :: scanRobotsAux n restAfter
          | none => scanRobotsAux n s
        else scanRobotsAux n s) = scanRobotsAux n s
  rw [h]
  simp

/-- One scan step at a position where the token matches. -/
theorem scanRobotsAux_cons_pos (n : Nat) (c : Char) (s : List Char)
    (h : startsWithCI sitemapToken (c :: s) = true) :
    scanRobotsAux (n + 1) (c :: s) =
      match tryMatchTail ((c :: s).drop 8) with
      | some (cap, restAfter) => cap :: scanRobotsAux n restAfter
      | none => scanRobotsAux n s := by
  show (if startsWithCI sitemapToken (c :: s) = true then
          match tryMatchTail ((c :: s).drop 8) with
          | some (cap, restAfter) => cap :: scanRobotsAux n restAfter
          | none => scanRobotsAux n s
        else scanRobotsAux n s) = _
  rw [h]
  simp

theorem tryMatchTail_value (v rest : List Char)
    (hnl : '\n' ∉ v) (hnw : ∃ c ∈ v, isWs c = false) :
    tryMatchTail (v ++ '\n' :: rest) =
      some (v.dropWhile isWs, '\n' :: rest) := by
  unfold tryMatchTail
  have h1 : (v ++ '\n' :: rest).dropWhile isWs =
      v.dropWhile isWs ++ '\n' :: rest :=
    dropWhile_append_of_exists v ('\n' :: rest) hnw
  rw [h1]
  cases ha : v.dropWhile isWs with
  | nil => exact absurd ha (dropWhile_ne_nil_of_exists v hnw)
  | cons d ds =>
    rw [List.cons_append]
    dsimp only
    have hmem : ∀ c ∈ d :: ds, c ∈ v := by
      intro c hc
      rw [← ha] at hc
      exact (List.dropWhile_sublist isWs).subset hc
    have hcap : (d :: (ds ++ '\n' :: rest)).takeWhile
        (fun x => decide (x ≠ '\n')) = d :: ds := by
      rw [show d :: (ds ++ '\n' :: rest) = (d :: ds) ++ '\n' :: rest from rfl]
      refine takeWhile_append_stop (d :: ds) '\n' rest ?_ (by simp)
      intro c hc
      have : c ∈ v := hmem c hc
      simp only [decide_eq_true_eq]
      intro hfalse
      subst hfalse
      exact hnl this
    rw [hcap]
    have hdrop : (d :: (ds ++ '\n' :: rest)).drop (d :: ds).length =
        '\n' :: rest := by
      rw [show d :: (ds ++ '\n' :: rest) = (d :: ds) ++ '\n' :: rest from rfl]
      exact List.drop_left (d :: ds) ('\n' :: rest)
    rw [hdrop]

/-- Scanning a gap line finds nothing: every position of the line fails
the token match (a match could not span past the terminating newline). -/
theorem scanRobots_gap (g rest : List Char)
    (hnl : '\n' ∉ g) (hnt : noTokenTillNl g = true) :
    scanRobots (g ++ '\n' :: rest) = scanRobots rest := by
  induction g with
  | nil => rfl
  | cons c g' ih =>
    rw [show noTokenTillNl (c :: g') =
        (!startsWithCI sitemapToken ((c :: g') ++ ['\n']) &&
          noTokenTillNl g') from rfl] at hnt
    simp only [Bool.and_eq_true, Bool.not_eq_true'] at hnt
    have hcond : startsWithCI sitemapToken (c :: (g' ++ '\n' :: rest)) = false := by
      have := startsWithCI_stops_at_nl sitemapToken (by decide) (c :: g') rest []
      simp only [List.cons_append] at this hnt
      rw [this]
      exact hnt.1
    unfold scanRobots
    simp only [List.cons_append, List.length_cons]
    rw [scanRobotsAux_cons_neg _ _ _ hcond]
    have hfold : scanRobotsAux ((g' ++ '\n' :: rest).length) (g' ++ '\n' :: rest) =
        scanRobots (g' ++ '\n' :: rest) := rfl
    rw [hfold]
    exact ih (fun hx => hnl (List.mem_cons_of_mem c hx)) hnt.2

/-- Scanning a record line emits its value (the text after the token,
stripped of the white space `\s*` consumes) and resumes after the line. -/
theorem scanRobots_record (tok v rest : List Char)
    (htok : tok.map foldChar = sitemapToken.map foldChar)
    (hnl : '\n' ∉ v) (hnw : ∃ c ∈ v, isWs c = false) :
    scanRobots ((tok ++ v) ++ '\n' :: rest) =
      v.dropWhile isWs :: scanRobots rest := by
  have hlen8 : tok.length = 8 := by
    have := congrArg List.length htok
    simpa using this
  cases tok with
  | nil => simp at hlen8
  | cons c tok' =>
    have hcond : startsWithCI sitemapToken (c :: (tok' ++ (v ++ '\n' :: rest))) = true := by
      have := startsWithCI_append_of_fold sitemapToken (c :: tok') htok
        (v ++ '\n' :: rest)
      simpa using this
    unfold scanRobots
    simp only [List.cons_append, List.append_assoc, List.length_cons]
    rw [scanRobotsAux_cons_pos _ _ _ hcond]
    have hdrop8 : (c :: (tok' ++ (v ++ '\n' :: rest))).drop 8 =
        v ++ '\n' :: rest := by
      rw [show c :: (tok' ++ (v ++ '\n' :: rest)) =
          (c :: tok') ++ (v ++ '\n' :: rest) from rfl,
        show (8 : Nat) = (c :: tok').length from by
          simp only [List.length_cons] at hlen8 ⊢
          omega]
      exact List.drop_left _ _
    rw [hdrop8, tryMatchTail_value v rest hnl hnw]
    dsimp only
    congr 1
    have hN : (tok' ++ (v ++ '\n' :: rest)).length =
        tok'.length + v.length + rest.length + 1 := by
      simp only [List.length_append, List.length_cons]
      omega
    rw [hN, scanRobotsAux_cons_neg _ _ _ (by rfl)]
    exact scanRobotsAux_congr _ _ rest (by omega) (le_refl _)

/-- Scanning a well-formed body yields exactly the record values, in file
order, each stripped of the leading white space `\s*` consumes. -/
theorem scanRobots_robotsBodyOf :
    ∀ ls : List RobotsLine, (∀ l ∈ ls, WfLine l) →
      scanRobots (robotsBodyOf ls) =
        (recordValues ls).map (List.dropWhile isWs) := by
  intro ls
  induction ls with
  | nil =>
    intro _
    rfl
  | cons l ls ih =>
    intro hwf
    have hl := hwf l (by simp)
    cases l with
    | gap g =>
      obtain ⟨hnl, hnt⟩ := hl
      show scanRobots (g ++ '\n' :: robotsBodyOf ls) =
        (recordValues ls).map (List.dropWhile isWs)
      rw [scanRobots_gap g (robotsBodyOf ls) hnl hnt]
      exact ih (fun u hu => hwf u (by simp [hu]))
    | record tok v =>
      obtain ⟨htok, hnl, hnw⟩ := hl
      show scanRobots ((tok ++ v) ++ '\n' :: robotsBodyOf ls) =
        v.dropWhile isWs :: (recordValues ls).map (List.dropWhile isWs)
      rw [scanRobots_record tok v (robotsBodyOf ls) htok hnl hnw,
        ih (fun u hu => hwf u (by simp [hu]))]

/-- C3 counterexample: the body consisting of the bare token holds one
case-insensitive occurrence of `sitemap:`, yet the function returns zero
values — the regex `(?i)sitemap:\s*(.+)` needs a non-empty trailing value,
so the claim's "exactly N trailing values" fails at N = 1. -/
theorem c3_counterexample :
    countOccurrencesCI sitemapToken "sitemap:".toList = 1 ∧
    getSitemapURLsFromRobots oneTokenNet "https://r1.example" = .ok [] :=
  ⟨by rfl, by rfl⟩

/-- C3 (amended): for every robots.txt body whose lines are either gap
lines with no case-insensitive occurrence of the token `sitemap:`, or
record lines — any casing of the token followed on the same line by text
holding at least one non-white-space character (the condition the
counterexample forces: a bare `sitemap:` with no such value yields no
match) — the function returns exactly the N record values, each trimmed
of surrounding white space, in file order with duplicates preserved; and
when N ≥ 1 the static fallback list is not used. -/
theorem c3_robots_extraction (net : Network) (baseURL : String)
    (ls : List RobotsLine)
    (hwf : ∀ l ∈ ls, WfLine l)
    (hfetch : Network.fetchText net (baseURL ++ "/robots.txt") =
      some (robotsBodyOf ls).asString) :
    getSitemapURLsFromRobots net baseURL =
      .ok ((recordValues ls).map fun v => (trimSpace v).asString) ∧
    (recordValues ls ≠ [] → sitemapCandidates net baseURL =
      (recordValues ls).map fun v => (trimSpace v).asString) := by
  have hmain : getSitemapURLsFromRobots net baseURL =
      .ok ((recordValues ls).map fun v => (trimSpace v).asString) := by
    unfold getSitemapURLsFromRobots
    rw [hfetch]
    dsimp only
    rw [show (robotsBodyOf ls).asString.toList = robotsBodyOf ls from rfl,
      scanRobots_robotsBodyOf ls hwf, List.map_map]
    refine congrArg (Except.ok) ?_
    refine List.map_congr_left ?_
    intro v _
    show (trimSpace (v.dropWhile isWs)).asString = (trimSpace v).asString
    rw [trimSpace_dropWhile_isWs]
  refine ⟨hmain, ?_⟩
  intro hne
  unfold sitemapCandidates
  rw [hmain]
  dsimp only
  cases hrv : recordValues ls with
  | nil => exact absurd hrv hne
  | cons v vs => simp

/-- Witness for C3 (amended) at a robots.txt interleaving two sitemap
records (mixed casings and spacings) with gap lines. -/
theorem c3_robots_extraction_witness :
    getSitemapURLsFromRobots robotsListNet "https://r2.example" =
      .ok ["https://r2.example/a.xml", "https://r2.example/b.xml"] ∧
    sitemapCandidates robotsListNet "https://r2.example" =
      ["https://r2.example/a.xml", "https://r2.example/b.xml"] := by
  have h := c3_robots_extraction robotsListNet "https://r2.example"
    robotsDemoLines
    (by
      intro l hl
      simp only [robotsDemoLines, List.mem_cons, List.not_mem_nil, or_false] at hl
      rcases hl with rfl | rfl | rfl | rfl
      · exact ⟨by decide, by decide⟩
      · exact ⟨by decide, by decide, by decide⟩
      · exact ⟨by decide, by decide⟩
      · exact ⟨by decide, by decide, by decide⟩)
    rfl
  exact ⟨h.1, h.2 (by decide)⟩

end SitemapScanner
